import Mathlib

/-!
Verification of the ActiveMotion backend core: the vision-first UI
reconciliation engine (`Backend/app/util/hybrid_UI_element.py`), the
graph-store cascading delete (`Backend/app/main.py`), the traffic
associator (`Backend/app/traffic_mapper.py`) and the ADB connection
monitor (`Backend/app/main.py`), shallowly embedded in Lean.

Python floats are modelled as exact rationals (`ℚ`), Python ints as `Int`
(bounds parsed from markup are non-negative, but pixel conversions may in
principle be any integer), Python strings as `String`.  Exceptions become
`Except` / `Option` values.
-/

namespace ActiveMotion

/-- An axis-aligned rectangle `[x1, y1, x2, y2]` in pixel coordinates,
as the 4-element lists used throughout `hybrid_UI_element.py`. -/
structure Rect where
  x1 : Int
  y1 : Int
  x2 : Int
  y2 : Int
deriving DecidableEq, Repr, Inhabited

/-- Embeds `is_contained(outer, inner)` from `hybrid_UI_element.py`:
inner is contained within (or equal to) outer, inclusively on all four
edges. -/
def is_contained (outer inner : Rect) : Bool :=
  outer.x1 ≤ inner.x1 && outer.y1 ≤ inner.y1 &&
  outer.x2 ≥ inner.x2 && outer.y2 ≥ inner.y2

/-- The intersection area computed inside `calculate_iou`:
`max(0, xB - xA) * max(0, yB - yA)`. -/
def interArea (boxA boxB : Rect) : Int :=
  let xA := max boxA.x1 boxB.x1
  let yA := max boxA.y1 boxB.y1
  let xB := min boxA.x2 boxB.x2
  let yB := min boxA.y2 boxB.y2
  (max 0 (xB - xA)) * (max 0 (yB - yA))

/-- The area of one box as computed in `calculate_iou`
(`(x2 - x1) * (y2 - y1)`, which may be negative for an inverted box). -/
def boxArea (box : Rect) : Int :=
  (box.x2 - box.x1) * (box.y2 - box.y1)

/-- Embeds `calculate_iou(boxA, boxB)` from `hybrid_UI_element.py`: intersection
over union with an explicit zero-union guard. -/
def calculate_iou (boxA boxB : Rect) : ℚ :=
  let inter := interArea boxA boxB
  let unionArea : ℚ := (boxArea boxA : ℚ) + (boxArea boxB : ℚ) - (inter : ℚ)
  if unionArea = 0 then 0
  else (inter : ℚ) / unionArea

/-- One step of `re.findall(r'\d+', s)`: accumulate the value of the
current maximal digit run (`acc`) while scanning the characters, emitting
a number each time a run ends. -/
def digitRunsAux : List Char → Option Nat → List Nat
  | [], none => []
  | [], some n => [n]
  | c :: cs, acc =>
    if c.isDigit then
      digitRunsAux cs (some (acc.getD 0 * 10 + (c.toNat - 48)))
    else
      match acc with
      | none => digitRunsAux cs none
      | some n => n :: digitRunsAux cs none

/-- Embeds `re.findall(r'\d+', s)` followed by `int` on each match: the list of
maximal digit runs of `s`, as numbers, in order. -/
def findallDigits (s : String) : List Nat :=
  digitRunsAux s.data none

/-- Embeds `parse_bounds(bounds_str)` from `hybrid_UI_element.py`.  The argument
is `Option String` because the attribute may be absent (`None` in
Python); `None` and the empty string are both falsy. -/
def parse_bounds (bounds_str : Option String) : Option Rect :=
  match bounds_str with
  | none => none
  | some s =>
    if s = "" then none
    else
      match findallDigits s with
      | [a, b, c, d] => some ⟨(a : Int), (b : Int), (c : Int), (d : Int)⟩
      | _ => none

/-- Python `int(q)` on a float: truncation toward zero. -/
def pyTrunc (q : ℚ) : Int :=
  if 0 ≤ q then ⌊q⌋ else -⌊-q⌋

/-- A normalized (0.0–1.0) bounding box as delivered by the vision
collaborator. -/
structure QRect where
  x1 : ℚ
  y1 : ℚ
  x2 : ℚ
  y2 : ℚ
deriving DecidableEq, Repr

/-- Embeds `convert_omni_bbox(bbox, screen_w, screen_h)`: scale a normalized
bbox to pixels, truncating each coordinate with `int`. -/
def convert_omni_bbox (bbox : QRect) (screen_w screen_h : Int) : Rect :=
  ⟨pyTrunc (bbox.x1 * (screen_w : ℚ)),
   pyTrunc (bbox.y1 * (screen_h : ℚ)),
   pyTrunc (bbox.x2 * (screen_w : ℚ)),
   pyTrunc (bbox.y2 * (screen_h : ℚ))⟩

/-- A parsed XML element as produced by `xml.etree.ElementTree`: an
attribute map plus an ordered list of children.  `ET.fromstring` itself
is Python standard library; its result (or the `ParseError` outcome,
`none`) is the input of the embedded functions. -/
inductive XMLTree where
  | node (attrib : List (String × String)) (children : List XMLTree)

/-- Lookup `attrib.get(key)`: first binding of the key, if any (an XML element's
attribute names are unique). -/
def getAttr (attrs : List (String × String)) (key : String) : Option String :=
  (attrs.find? (fun p => p.1 = key)).map Prod.snd

/-- The attribute map of an element. -/
def XMLTree.attrib : XMLTree → List (String × String)
  | .node a _ => a

mutual
/-- Embeds `root.iter()`: the element itself followed by the pre-order traversal
of its children. -/
def XMLTree.iter : XMLTree → List XMLTree
  | .node a cs => .node a cs :: iterList cs

/-- Pre-order traversal of a forest, left to right. -/
def iterList : List XMLTree → List XMLTree
  | [] => []
  | t :: ts => t.iter ++ iterList ts
end

/-- The result type of `analyze_screen_state`. -/
structure ScreenState where
  can_scroll_vertical : Bool
  scrollable_areas : List Rect
deriving DecidableEq, Repr

/-- The body of the `for node in root.iter()` loop of
`analyze_screen_state`. -/
def scrollStep (st : ScreenState) (nd : XMLTree) : ScreenState :=
  if getAttr nd.attrib ("scrollable") = some ("true") then
    match parse_bounds (getAttr nd.attrib ("bounds")) with
    | some b => ⟨true, st.scrollable_areas ++ [b]⟩
    | none => st
  else st

/-- Embeds `analyze_screen_state(xml_str)` from `hybrid_UI_element.py`.  The
argument is the outcome of `ET.fromstring`: `none` models a
`ParseError`, which yields the default state. -/
def analyze_screen_state (parsed : Option XMLTree) : ScreenState :=
  match parsed with
  | none => ⟨false, []⟩
  | some root => root.iter.foldl scrollStep ⟨false, []⟩

/-- Does `s` contain `pat` as a contiguous substring (Python `in`)? -/
def containsSub (pat : List Char) : List Char → Bool
  | [] => pat.isPrefixOf []
  | c :: cs => pat.isPrefixOf (c :: cs) || containsSub pat cs

/-- The interaction flags extracted per node by `extract_adb_nodes`. -/
structure Actions where
  clickable : Bool
  scrollable : Bool
  editable : Bool
  checked : Bool
  enabled : Bool
  selected : Bool
deriving DecidableEq, Repr, Inhabited

/-- One entry of the ADB node pool built by `extract_adb_nodes`. -/
structure AdbNode where
  text : String
  description : String
  resource_id : String
  cls : String
  bounds : Rect
  actions : Actions
deriving DecidableEq, Repr, Inhabited

/-- The per-element body of the `extract_adb_nodes` loop: `none` when the
bounds attribute does not parse (the node is skipped), otherwise the pool
entry. -/
def nodeOfXML (nd : XMLTree) : Option AdbNode :=
  match parse_bounds (getAttr nd.attrib ("bounds")) with
  | none => none
  | some bounds =>
    let cls := (getAttr nd.attrib ("class")).getD ("")
    some
      { text := (getAttr nd.attrib ("text")).getD ("")
        description := (getAttr nd.attrib ("content-desc")).getD ("")
        resource_id := (getAttr nd.attrib ("resource-id")).getD ("")
        cls := cls
        bounds := bounds
        actions :=
          { clickable := getAttr nd.attrib ("clickable") = some ("true")
            scrollable := getAttr nd.attrib ("scrollable") = some ("true")
            editable := containsSub ("EditText".data) cls.data
            checked := getAttr nd.attrib ("checked") = some ("true")
            enabled := getAttr nd.attrib ("enabled") = some ("true")
            selected := getAttr nd.attrib ("selected") = some ("true") } }

/-- Embeds `extract_adb_nodes(xml_content)` from `hybrid_UI_element.py`:
`ParseError` (`none`) yields the empty pool; otherwise every node of the
tree in pre-order, skipping those whose bounds do not parse. -/
def extract_adb_nodes (parsed : Option XMLTree) : List AdbNode :=
  match parsed with
  | none => []
  | some root => root.iter.filterMap nodeOfXML

/-- One vision detection from the OmniParser list: a `type`
(`"text"`/`"icon"`), a normalized bbox and the OCR / caption content. -/
structure VisionDetection where
  type : String
  bbox : QRect
  content : String
deriving DecidableEq, Repr

/-- The `adb_attributes` bundle attached to an enriched element. -/
structure AdbAttributes where
  text : String
  resource_id : String
  content_desc : String
  cls : String
  clickable : Bool
  scrollable : Bool
  editable : Bool
  checked : Bool
  selected : Bool
deriving DecidableEq, Repr

/-- One element of the merged output. -/
structure Element where
  uid : Nat
  source : String
  type : String
  content : String
  bounds : Rect
  adb_attributes : Option AdbAttributes
deriving DecidableEq, Repr

/-- The inner matching loop of `generate_merged_json` (Step 4): scan the
pool (zipped with its matched flags, `i` the index of the first entry),
keeping `(best_iou, best_adb_match)` and replacing the best candidate
only when the IoU exceeds both the 0.3 threshold and the current best. -/
def bestAux (vb : Rect) : List (AdbNode × Bool) → Nat → ℚ × Option Nat → ℚ × Option Nat
  | [], _, st => st
  | (nd, m) :: rest, i, st =>
    if m then bestAux vb rest (i + 1) st
    else
      let iou := calculate_iou vb nd.bounds
      if 3 / 10 < iou ∧ st.1 < iou then bestAux vb rest (i + 1) (iou, some i)
      else bestAux vb rest (i + 1) st

/-- The child-text harvest of `generate_merged_json` (Step 5): every pool
node other than the matched one (index `bi`) whose bounds are contained
in the matched node's bounds contributes its text, or failing that its
description, when non-empty. -/
def childTexts (pool : List AdbNode) (bi : Nat) (best : AdbNode) : List String :=
  pool.enum.filterMap (fun p =>
    if p.1 = bi then none
    else if is_contained best.bounds p.2.bounds then
      let txt := if p.2.text = "" then p.2.description else p.2.text
      if txt = "" then none else some txt
    else none)

/-- Steps 4–5 of `generate_merged_json` for one detection: build the
element (initially `vision_only`), search the best unmatched pool node
and, when found, enrich the element and consume the node. -/
def detectionStep (pool : List AdbNode) (screen_w screen_h : Int)
    (matched : List Bool) (det : VisionDetection) (uid : Nat) :
    Element × List Bool :=
  let vision_bounds := convert_omni_bbox det.bbox screen_w screen_h
  let element : Element :=
    ⟨uid, "vision_only", det.type, det.content, vision_bounds, none⟩
  match (bestAux vision_bounds (pool.zip matched) 0 (0, none)).2 with
  | none => (element, matched)
  | some i =>
    let best := pool.getD i default
    let candidate_desc := best.description
    let candidate_text :=
      if best.text = "" ∧ candidate_desc = "" then
        let cts := childTexts pool i best
        if cts = [] then best.text else String.intercalate (" ") cts
      else best.text
    let content :=
      if candidate_text ≠ "" then candidate_text
      else if candidate_desc ≠ "" then candidate_desc
      else det.content
    ({ element with
        source := "vision_enriched"
        content := content
        adb_attributes := some
          ⟨best.text, best.resource_id, best.description, best.cls,
           best.actions.clickable, best.actions.scrollable,
           best.actions.editable, best.actions.checked,
           best.actions.selected⟩ },
     matched.set i true)

/-- The body of the vision-first loop of `generate_merged_json`: process
one detection, append its element and advance the uid counter. -/
def processDetection (pool : List AdbNode) (screen_w screen_h : Int)
    (st : List Bool × List Element × Nat) (det : VisionDetection) :
    List Bool × List Element × Nat :=
  let r := detectionStep pool screen_w screen_h st.1 det st.2.2
  (r.2, st.2.1 ++ [r.1], st.2.2 + 1)

/-- The output structure of `generate_merged_json` (before JSON
serialization). -/
structure MergedOutput where
  screen_state : ScreenState
  elements : List Element
deriving DecidableEq, Repr

/-- Embeds `generate_merged_json(xml_str, omni_json_list, screen_w, screen_h)`
from `hybrid_UI_element.py`: analyze the screen state, build the ADB
pool with all nodes unmatched, then run the vision-first loop. -/
def generate_merged_json (parsed : Option XMLTree)
    (omni_json_list : List VisionDetection) (screen_w screen_h : Int) :
    MergedOutput :=
  let screen_state := analyze_screen_state parsed
  let adb_nodes := extract_adb_nodes parsed
  let fin := omni_json_list.foldl (processDetection adb_nodes screen_w screen_h)
    (List.replicate adb_nodes.length false, [], 1)
  ⟨screen_state, fin.2.1⟩

/-- A row of the `nodes` table (`main.py` schema). -/
structure NodeRow where
  id : String
  label : String
  description : String
  screenshot_path : Option String
  annotated_screenshot_path : Option String
deriving DecidableEq, Repr

/-- A row of the `edges` table. -/
structure EdgeRow where
  id : String
  source_node_id : String
  target_node_id : String
  label : String
  animated : Bool
deriving DecidableEq, Repr

/-- A row of the `traffic_index` table (`edge_id` is nullable). -/
structure TrafficRow where
  id : Nat
  edge_id : Option String
  burp_ref_id : String
  method : String
  url : String
  status_code : Int
  timestamp_start : ℚ
deriving DecidableEq, Repr

/-- A row of the `parser_outputs` table. -/
structure ParserOutputRow where
  node_id : String
  parsed_content_list : String
  label_coordinates : String
deriving DecidableEq, Repr

/-- The SQLite store of `main.py`: the four tables. -/
structure Store where
  nodes : List NodeRow
  edges : List EdgeRow
  traffic_index : List TrafficRow
  parser_outputs : List ParserOutputRow
deriving DecidableEq, Repr

/-- Embeds `delete_node_and_related(node_id)` from `main.py`.  Returns the
store after the call together with the HTTP outcome (`.error 404` when
the node row is absent).  The two `Bool` parameters model whether the
best-effort removals of the screenshot and annotated-screenshot files
fail with `OSError`; the function swallows those failures, so they do
not influence the result. -/
def delete_node_and_related (db : Store) (node_id : String)
    (_screenshotDeleteFails _annotatedDeleteFails : Bool) :
    Store × Except Nat Unit :=
  match db.nodes.find? (fun n => n.id = node_id) with
  | none => (db, .error 404)
  | some _ =>
    let edge_ids :=
      (db.edges.filter
        (fun e => e.source_node_id = node_id || e.target_node_id = node_id)).map
        (fun e => e.id)
    let traffic' :=
      if edge_ids.isEmpty then db.traffic_index
      else db.traffic_index.filter (fun t =>
        match t.edge_id with
        | some eid => ¬ edge_ids.contains eid
        | none => true)
    let parser' := db.parser_outputs.filter (fun p => p.node_id ≠ node_id)
    let edges' := db.edges.filter (fun e =>
      ¬ (e.source_node_id = node_id || e.target_node_id = node_id))
    let nodes' := db.nodes.filter (fun n => n.id ≠ node_id)
    (⟨nodes', edges', traffic', parser'⟩, .ok ())

/-- A raw traffic entry as fetched from the Burp proxy history, with the
fields `parse_traffic_entry` reads.  Timestamps are exact rationals. -/
structure RawTrafficEntry where
  time : ℚ
  id : String
  method : String
  url : String
  statusCode : Int
deriving DecidableEq, Repr

/-- A parsed traffic entry (`parse_traffic_entry` output), extended with
the optional `edge_id` tag added by `associate_traffic_with_edge`. -/
structure ParsedTraffic where
  burp_ref_id : String
  method : String
  url : String
  status_code : Int
  timestamp_start : ℚ
  edge_id : Option String
deriving DecidableEq, Repr

/-- Embeds `TrafficMapper.parse_traffic_entry`: extract the standardized fields
(total here because the modelled raw entry always carries them; the
Python `except` path returns `None`). -/
def parse_traffic_entry (e : RawTrafficEntry) : Option ParsedTraffic :=
  some ⟨e.id, e.method, e.url, e.statusCode, e.time, none⟩

/-- Embeds `TrafficMapper.get_traffic_by_timerange(start_time, end_time)`, with
the fetched proxy history an explicit argument: keep the entries whose
time satisfies `start_time <= t <= end_time`, parse them and drop `None`
parses. -/
def get_traffic_by_timerange (history : List RawTrafficEntry)
    (start_time end_time : ℚ) : List ParsedTraffic :=
  (history.filter (fun e =>
    decide (start_time ≤ e.time) && decide (e.time ≤ end_time))).filterMap
    parse_traffic_entry

/-- Embeds `TrafficMapper.associate_traffic_with_edge(edge_id, start_time,
end_time)`: select the window's traffic and tag each entry with the
edge id. -/
def associate_traffic_with_edge (history : List RawTrafficEntry)
    (edge_id : String) (start_time end_time : ℚ) : List ParsedTraffic :=
  (get_traffic_by_timerange history start_time end_time).map
    (fun t => { t with edge_id := some edge_id })

/-- Modelled from the spec: persistence of the associated traffic
entries.  `associate_traffic_with_edge` has no caller under the backend
sources, and the insertion into `traffic_index` is absent from them;
spec §4.5 says the tagged entries are persisted, which is modelled as
appending them to the stored list. -/
def persist_traffic (stored : List ParsedTraffic)
    (entries : List ParsedTraffic) : List ParsedTraffic :=
  stored ++ entries

/-- One iteration of the `monitor_adb_connection` polling loop, given
the previously recorded status and the freshly observed one: whether an
`adb_status` broadcast is emitted, and the recorded status afterwards. -/
def monitorStep (previous_status : Option String) (current_status : String) :
    Bool × Option String :=
  (match previous_status with
   | none => false
   | some p => decide (current_status ≠ p),
   some current_status)

/-- The monitor loop over a finite sequence of successfully observed
statuses: the per-poll broadcast decisions. -/
def monitorRun (previous_status : Option String) : List String → List Bool
  | [] => []
  | c :: cs =>
    (monitorStep previous_status c).1 ::
      monitorRun (monitorStep previous_status c).2 cs

/-- Geometric disjointness of two rectangles: one lies entirely at or
beyond an edge of the other (their interiors do not meet). -/
def RectDisjoint (A B : Rect) : Prop :=
  A.x2 ≤ B.x1 ∨ B.x2 ≤ A.x1 ∨ A.y2 ≤ B.y1 ∨ B.y2 ≤ A.y1

/-- The tree used to refute C6 as stated: a single element carrying
`scrollable="true"` but no bounds attribute. -/
def scrollableNoBoundsTree : XMLTree := .node [("scrollable", "true")] []

/-- A small concrete store used to witness the cascading delete. -/
def sampleStore : Store :=
  ⟨[⟨"n1", "Home", "home screen", some ("s1.png"), none⟩,
    ⟨"n2", "Menu", "menu screen", none, none⟩],
   [⟨"e1", "n1", "n2", "tap", true⟩, ⟨"e2", "n2", "n2", "scroll", true⟩],
   [⟨1, some ("e1"), "r1", "GET", "http://a", 200, 5⟩,
    ⟨2, some ("e2"), "r2", "GET", "http://b", 200, 6⟩],
   [⟨"n1", "[]", "coords1"⟩, ⟨"n2", "[]", "coords2"⟩]⟩

/-- A one-node pool far away from the witness detection (no overlap). -/
def farPool : List AdbNode :=
  [⟨"", "", "", "", ⟨5, 5, 9, 9⟩, ⟨false, false, false, false, true, false⟩⟩]

/-- A detection whose pixel bounds on a 10×10 screen are `[0,0][1,1]`. -/
def spriteDet : VisionDetection := ⟨"icon", ⟨0, 0, 1/10, 1/10⟩, "sprite"⟩

/-- A pool for the enrichment witnesses: a container without text whose
bounds coincide with the witness detection, plus two contained labelled
nodes and one matched-region-external node. -/
def containerPool : List AdbNode :=
  [⟨"", "", "", "android.widget.FrameLayout", ⟨0, 0, 10, 10⟩,
    ⟨true, false, false, false, true, false⟩⟩,
   ⟨"Song Title", "", "", "android.widget.TextView", ⟨0, 0, 4, 4⟩,
    ⟨false, false, false, false, true, false⟩⟩,
   ⟨"", "Artist", "", "android.widget.ImageView", ⟨4, 4, 8, 8⟩,
    ⟨false, false, false, false, true, false⟩⟩,
   ⟨"Elsewhere", "", "", "android.widget.TextView", ⟨11, 11, 20, 20⟩,
    ⟨false, false, false, false, true, false⟩⟩]

/-- A detection covering the whole 10×10 screen (pixel bounds
`[0,0][10,10]`). -/
def fullDet : VisionDetection := ⟨"text", ⟨0, 0, 1, 1⟩, "ocr guess"⟩

example : findallDigits ("[0,200][1080,2000]") = [0, 200, 1080, 2000] := by decide
example : parse_bounds (some ("[0,200][1080,2000]")) = some ⟨0, 200, 1080, 2000⟩ := by decide
example : parse_bounds (some ("garbage")) = none := by decide
example : parse_bounds (some ("")) = none := by decide
example : parse_bounds none = none := by decide
example : calculate_iou ⟨0, 0, 2, 2⟩ ⟨0, 0, 2, 2⟩ = 1 := by
  norm_num [calculate_iou, interArea, boxArea]
example : calculate_iou ⟨0, 0, 2, 2⟩ ⟨2, 0, 4, 2⟩ = 0 := by
  norm_num [calculate_iou, interArea, boxArea]
example : calculate_iou ⟨0, 0, 0, 0⟩ ⟨0, 0, 0, 0⟩ = 0 := by
  norm_num [calculate_iou, interArea, boxArea]
example : calculate_iou ⟨0, 0, 2, 2⟩ ⟨1, 0, 3, 2⟩ = 1 / 3 := by
  norm_num [calculate_iou, interArea, boxArea]

lemma interArea_def (A B : Rect) :
    interArea A B =
      (max 0 (min A.x2 B.x2 - max A.x1 B.x1)) *
        (max 0 (min A.y2 B.y2 - max A.y1 B.y1)) := rfl

lemma interArea_nonneg (A B : Rect) : 0 ≤ interArea A B := by
  rw [interArea_def]
  exact mul_nonneg (le_max_left 0 _) (le_max_left 0 _)

lemma interArea_of_disjoint (A B : Rect) (h : RectDisjoint A B) :
    interArea A B = 0 := by
  rcases h with h | h | h | h
  · have hx : min A.x2 B.x2 - max A.x1 B.x1 ≤ 0 := by
      have h1 := min_le_left A.x2 B.x2
      have h2 := le_max_left A.x1 B.x1
      omega
    rw [interArea_def, max_eq_left hx, zero_mul]
  · have hx : min A.x2 B.x2 - max A.x1 B.x1 ≤ 0 := by
      have h1 := min_le_right A.x2 B.x2
      have h2 := le_max_right A.x1 B.x1
      omega
    rw [interArea_def, max_eq_left hx, zero_mul]
  · have hy : min A.y2 B.y2 - max A.y1 B.y1 ≤ 0 := by
      have h1 := min_le_left A.y2 B.y2
      have h2 := le_max_left A.y1 B.y1
      omega
    rw [interArea_def, max_eq_left hy, mul_zero]
  · have hy : min A.y2 B.y2 - max A.y1 B.y1 ≤ 0 := by
      have h1 := min_le_right A.y2 B.y2
      have h2 := le_max_right A.y1 B.y1
      omega
    rw [interArea_def, max_eq_left hy, mul_zero]

lemma calculate_iou_self (A : Rect) (hx : A.x1 < A.x2) (hy : A.y1 < A.y2) :
    calculate_iou A A = 1 := by
  have harea : (0 : Int) < boxArea A := by
    unfold boxArea
    exact mul_pos (by omega) (by omega)
  have hinter : interArea A A = boxArea A := by
    rw [interArea_def]
    unfold boxArea
    rw [max_self, max_self, min_self, min_self,
      max_eq_right (by omega : (0 : Int) ≤ A.x2 - A.x1),
      max_eq_right (by omega : (0 : Int) ≤ A.y2 - A.y1)]
  have hq : (boxArea A : ℚ) ≠ 0 := Int.cast_ne_zero.mpr (ne_of_gt harea)
  unfold calculate_iou
  rw [hinter]
  have hsum : (boxArea A : ℚ) + (boxArea A : ℚ) - (boxArea A : ℚ) = (boxArea A : ℚ) := by
    ring
  simp only [hsum, if_neg hq, div_self hq]

lemma calculate_iou_disjoint (A B : Rect) (h : RectDisjoint A B) :
    calculate_iou A B = 0 := by
  unfold calculate_iou
  rw [interArea_of_disjoint A B h]
  simp

lemma calculate_iou_zero_union (A B : Rect)
    (h : (boxArea A : ℚ) + (boxArea B : ℚ) - (interArea A B : ℚ) = 0) :
    calculate_iou A B = 0 := by
  unfold calculate_iou
  rw [if_pos h]

/-- C8: `calculate_iou` gives 1 on any non-degenerate rectangle paired
with itself, 0 on disjoint rectangles, and 0 (rather than a division by
zero) whenever the union area is zero. -/
theorem c8_iou_properties :
    (∀ A : Rect, A.x1 < A.x2 → A.y1 < A.y2 → calculate_iou A A = 1) ∧
    (∀ A B : Rect, RectDisjoint A B → calculate_iou A B = 0) ∧
    (∀ A B : Rect, (boxArea A : ℚ) + (boxArea B : ℚ) - (interArea A B : ℚ) = 0 →
      calculate_iou A B = 0) :=
  ⟨calculate_iou_self, calculate_iou_disjoint, calculate_iou_zero_union⟩

/-- Witness for C8 at concrete rectangles. -/
theorem c8_iou_properties_witness :
    calculate_iou ⟨0, 0, 2, 2⟩ ⟨0, 0, 2, 2⟩ = 1 ∧
    calculate_iou ⟨0, 0, 2, 2⟩ ⟨3, 0, 5, 2⟩ = 0 ∧
    calculate_iou ⟨0, 0, 0, 0⟩ ⟨0, 0, 0, 0⟩ = 0 :=
  ⟨c8_iou_properties.1 ⟨0, 0, 2, 2⟩ (by norm_num) (by norm_num),
   c8_iou_properties.2.1 ⟨0, 0, 2, 2⟩ ⟨3, 0, 5, 2⟩ (by left; norm_num),
   c8_iou_properties.2.2 ⟨0, 0, 0, 0⟩ ⟨0, 0, 0, 0⟩
     (by norm_num [boxArea, interArea])⟩

lemma monitorRun_getD (prev : Option String) (cs : List String) (i : Nat)
    (hi : i < cs.length) :
    (monitorRun prev cs).getD i false =
      (match i, prev with
       | 0, none => false
       | 0, some p => decide (cs.getD 0 ("") ≠ p)
       | Nat.succ j, _ => decide (cs.getD (j + 1) "" ≠ cs.getD j (""))) := by
  induction cs generalizing prev i with
  | nil => simp at hi
  | cons c cs ih =>
    match i with
    | 0 =>
      cases prev with
      | none => simp [monitorRun, monitorStep]
      | some p => simp [monitorRun, monitorStep]
    | Nat.succ j =>
      have hj : j < cs.length := by
        simpa using Nat.lt_of_succ_lt_succ hi
      have := ih (some c) j hj
      match j with
      | 0 => simpa [monitorRun, monitorStep] using this
      | Nat.succ j' => simpa [monitorRun, monitorStep] using this

/-- C10: a poll step of the connection monitor broadcasts exactly when a
previous status was already recorded and the current one differs from
it; in particular the first observed status (index 0, starting from a
fresh monitor with no recorded status) never triggers a broadcast, so a
monitor started against an already-connected device stays silent until
the status actually changes. -/
theorem c10_monitor_edge_triggered (statuses : List String) (i : Nat)
    (hi : i < statuses.length) :
    ((monitorRun none statuses).getD i false = true ↔
      0 < i ∧ statuses.getD i ("") ≠ statuses.getD (i - 1) "") := by
  rw [monitorRun_getD none statuses i hi]
  match i with
  | 0 => simp
  | Nat.succ j => simp

/-- Witness for C10: polling `connected, connected, disconnected` from a
fresh monitor broadcasts at the third poll (the first transition) and
not at the first. -/
theorem c10_monitor_edge_triggered_witness :
    ((monitorRun none ["connected", "connected", "disconnected"]).getD 2 false = true ↔
      0 < 2 ∧ ("disconnected" : String) ≠ "connected") ∧
    (monitorRun none ["connected", "connected", "disconnected"]).getD 0 false = false := by
  constructor
  · simpa using
      c10_monitor_edge_triggered ["connected", "connected", "disconnected"] 2
        (by norm_num)
  · have h0 :=
      c10_monitor_edge_triggered ["connected", "connected", "disconnected"] 0
        (by norm_num)
    simp at h0
    simpa using h0

/-- C9: traffic association over an explicitly fetched history selects
exactly the entries whose timestamp lies in the inclusive window
`[start_time, end_time]` (boundary timestamps included), tags each
selected entry with the edge id, and persisting appends them to the
stored list. -/
theorem c9_traffic_window (history : List RawTrafficEntry) (edge_id : String)
    (start_time end_time : ℚ) :
    (∀ t ∈ associate_traffic_with_edge history edge_id start_time end_time,
      t.edge_id = some edge_id ∧ start_time ≤ t.timestamp_start ∧
        t.timestamp_start ≤ end_time) ∧
    (∀ raw ∈ history, start_time ≤ raw.time → raw.time ≤ end_time →
      (⟨raw.id, raw.method, raw.url, raw.statusCode, raw.time, some edge_id⟩ :
          ParsedTraffic) ∈
        associate_traffic_with_edge history edge_id start_time end_time) ∧
    (associate_traffic_with_edge history edge_id start_time end_time).length =
      (history.filter (fun r =>
        decide (start_time ≤ r.time) && decide (r.time ≤ end_time))).length ∧
    (∀ stored : List ParsedTraffic,
      ∀ t ∈ associate_traffic_with_edge history edge_id start_time end_time,
        t ∈ persist_traffic stored
          (associate_traffic_with_edge history edge_id start_time end_time)) := by
  refine ⟨?_, ?_, ?_, ?_⟩
  · intro t ht
    simp only [associate_traffic_with_edge, get_traffic_by_timerange,
      List.mem_map, List.mem_filterMap, List.mem_filter] at ht
    obtain ⟨u, ⟨raw, ⟨hmem, hcond⟩, hparse⟩, hu⟩ := ht
    simp only [parse_traffic_entry, Option.some.injEq] at hparse
    subst hparse
    subst hu
    simp only [Bool.and_eq_true, decide_eq_true_eq] at hcond
    exact ⟨rfl, hcond.1, hcond.2⟩
  · intro raw hmem h1 h2
    simp only [associate_traffic_with_edge, get_traffic_by_timerange,
      List.mem_map, List.mem_filterMap, List.mem_filter]
    exact ⟨⟨raw.id, raw.method, raw.url, raw.statusCode, raw.time, none⟩,
      ⟨raw, ⟨hmem, by simp [h1, h2]⟩, rfl⟩, rfl⟩
  · simp only [associate_traffic_with_edge, get_traffic_by_timerange,
      List.length_map]
    have hlen : ∀ l : List RawTrafficEntry,
        (l.filterMap parse_traffic_entry).length = l.length := by
      intro l
      induction l with
      | nil => rfl
      | cons x xs ih => simp [parse_traffic_entry, List.filterMap_cons, ih]
    exact hlen _
  · intro stored t ht
    simp [persist_traffic, ht]

/-- Witness for C9: an entry whose timestamp equals the window's lower
boundary is selected and tagged. -/
theorem c9_traffic_window_witness :
    (⟨"a", "GET", "u", 200, 5, some ("e1")⟩ : ParsedTraffic) ∈
      associate_traffic_with_edge
        [⟨5, "a", "GET", "u", 200⟩, ⟨12, "b", "GET", "v", 200⟩] "e1" 5 10 :=
  (c9_traffic_window
    [⟨5, "a", "GET", "u", 200⟩, ⟨12, "b", "GET", "v", 200⟩] "e1" 5 10).2.1
    ⟨5, "a", "GET", "u", 200⟩ (by simp) (by norm_num) (by norm_num)

lemma scrollStep_mono (st : ScreenState) (nd : XMLTree) :
    (st.can_scroll_vertical = true →
      (scrollStep st nd).can_scroll_vertical = true) ∧
    (∀ b ∈ st.scrollable_areas, b ∈ (scrollStep st nd).scrollable_areas) := by
  unfold scrollStep
  split
  · split
    · exact ⟨fun _ => rfl, fun b hb => by simp [hb]⟩
    · exact ⟨fun h => h, fun b hb => hb⟩
  · exact ⟨fun h => h, fun b hb => hb⟩

lemma scrollStep_trigger (st : ScreenState) (nd : XMLTree) (b : Rect)
    (hs : getAttr nd.attrib ("scrollable") = some ("true"))
    (hb : parse_bounds (getAttr nd.attrib ("bounds")) = some b) :
    (scrollStep st nd).can_scroll_vertical = true ∧
    b ∈ (scrollStep st nd).scrollable_areas := by
  unfold scrollStep
  rw [if_pos hs, hb]
  exact ⟨rfl, by simp⟩

lemma scrollFold_mono (l : List XMLTree) (st : ScreenState) :
    (st.can_scroll_vertical = true →
      (l.foldl scrollStep st).can_scroll_vertical = true) ∧
    (∀ b ∈ st.scrollable_areas, b ∈ (l.foldl scrollStep st).scrollable_areas) := by
  induction l generalizing st with
  | nil => exact ⟨fun h => h, fun b hb => hb⟩
  | cons x xs ih =>
    simp only [List.foldl_cons]
    exact ⟨fun h => (ih (scrollStep st x)).1 ((scrollStep_mono st x).1 h),
      fun b hb => (ih (scrollStep st x)).2 b ((scrollStep_mono st x).2 b hb)⟩

lemma scrollFold_trigger (l : List XMLTree) (st : ScreenState)
    (nd : XMLTree) (hmem : nd ∈ l) (b : Rect)
    (hs : getAttr nd.attrib ("scrollable") = some ("true"))
    (hb : parse_bounds (getAttr nd.attrib ("bounds")) = some b) :
    (l.foldl scrollStep st).can_scroll_vertical = true ∧
    b ∈ (l.foldl scrollStep st).scrollable_areas := by
  induction l generalizing st with
  | nil => simp at hmem
  | cons x xs ih =>
    simp only [List.foldl_cons]
    rcases List.mem_cons.mp hmem with h | h
    · subst h
      obtain ⟨h1, h2⟩ := scrollStep_trigger st nd b hs hb
      exact ⟨(scrollFold_mono xs _).1 h1, (scrollFold_mono xs _).2 b h2⟩
    · exact ih (scrollStep st x) h

/-- Counterexample to C6 as stated: the dump contains a node with the
`scrollable="true"` flag, yet `analyze_screen_state` reports
`can_scroll_vertical = false` (and no scrollable areas), because the
node has no parseable bounds and the code only sets the flag after
bounds parsing succeeds. -/
theorem c6_counterexample :
    getAttr scrollableNoBoundsTree.attrib ("scrollable") = some ("true") ∧
    scrollableNoBoundsTree ∈ scrollableNoBoundsTree.iter ∧
    analyze_screen_state (some scrollableNoBoundsTree) =
      ⟨false, []⟩ := by
  refine ⟨rfl, ?_, rfl⟩
  show scrollableNoBoundsTree ∈ XMLTree.iter scrollableNoBoundsTree
  rw [scrollableNoBoundsTree, XMLTree.iter]
  exact List.mem_cons_self _ _

/-- C6 (amended): any dump node carrying `scrollable="true"` whose
bounds attribute parses to four integers sets `can_scroll_vertical` and
contributes its parsed bounds to `scrollable_areas`. -/
theorem c6_scrollable_amended (root : XMLTree) (nd : XMLTree)
    (hmem : nd ∈ root.iter)
    (hs : getAttr nd.attrib ("scrollable") = some ("true"))
    (b : Rect) (hb : parse_bounds (getAttr nd.attrib ("bounds")) = some b) :
    (analyze_screen_state (some root)).can_scroll_vertical = true ∧
    b ∈ (analyze_screen_state (some root)).scrollable_areas := by
  unfold analyze_screen_state
  exact scrollFold_trigger root.iter ⟨false, []⟩ nd hmem b hs hb

/-- Witness for C6 (amended), the spec's own example: one node with
`scrollable="true"` and bounds `[0,200][1080,2000]`. -/
theorem c6_scrollable_amended_witness :
    (analyze_screen_state (some (.node [("scrollable", "true"),
        ("bounds", "[0,200][1080,2000]")] []))).can_scroll_vertical = true ∧
    (⟨0, 200, 1080, 2000⟩ : Rect) ∈
      (analyze_screen_state (some (.node [("scrollable", "true"),
        ("bounds", "[0,200][1080,2000]")] []))).scrollable_areas :=
  c6_scrollable_amended
    (.node [("scrollable", "true"), ("bounds", "[0,200][1080,2000]")] [])
    (.node [("scrollable", "true"), ("bounds", "[0,200][1080,2000]")] [])
    (by rw [XMLTree.iter]; exact List.mem_cons_self _ _)
    (by decide) ⟨0, 200, 1080, 2000⟩ (by decide)

/-- C7: malformed input never raises — an unparseable dump yields the
default screen state and the empty pool — and a node whose bounds
attribute does not yield exactly four integers is silently dropped
while every node with parseable bounds is retained, in order. -/
theorem c7_graceful_degradation (root : XMLTree) :
    analyze_screen_state none = ⟨false, []⟩ ∧
    extract_adb_nodes none = [] ∧
    (extract_adb_nodes (some root)).map (fun n => n.bounds) =
      root.iter.filterMap (fun nd => parse_bounds (getAttr nd.attrib ("bounds"))) ∧
    (∀ nd ∈ root.iter, parse_bounds (getAttr nd.attrib ("bounds")) = none →
      nodeOfXML nd = none) := by
  refine ⟨rfl, rfl, ?_, ?_⟩
  · show (root.iter.filterMap nodeOfXML).map (fun n => n.bounds) = _
    rw [List.map_filterMap]
    apply List.filterMap_congr
    intro nd _
    unfold nodeOfXML
    cases h : parse_bounds (getAttr nd.attrib ("bounds")) <;> simp
  · intro nd _ h
    unfold nodeOfXML
    rw [h]

/-- Witness for C7: a dump with one parseable-bounds node and one
garbage-bounds node keeps exactly the former. -/
theorem c7_graceful_degradation_witness :
    (extract_adb_nodes (some (.node [("bounds", "oops")]
        [.node [("bounds", "[1,2][3,4]")] []]))).map (fun n => n.bounds) =
      [⟨1, 2, 3, 4⟩] ∧
    nodeOfXML (.node [("bounds", "oops")]
        [.node [("bounds", "[1,2][3,4]")] []]) = none := by
  have h := c7_graceful_degradation
    (.node [("bounds", "oops")] [.node [("bounds", "[1,2][3,4]")] []])
  constructor
  · rw [h.2.2.1]
    decide
  · exact h.2.2.2 _ (by rw [XMLTree.iter]; exact List.mem_cons_self _ _)
      (by decide)

/-- C5: deleting an absent node id fails with 404 and leaves the store
unchanged; deleting a present id removes the node row, every edge
touching the node, every traffic entry referencing such an edge, and
the node's parser output; and the outcome never depends on whether the
best-effort file deletions fail. -/
theorem c5_delete_node_cascade (db : Store) (node_id : String) (f1 f2 : Bool) :
    ((∀ n ∈ db.nodes, n.id ≠ node_id) →
      delete_node_and_related db node_id f1 f2 = (db, .error 404)) ∧
    ((∃ n ∈ db.nodes, n.id = node_id) →
      (delete_node_and_related db node_id f1 f2).2 = .ok () ∧
      (∀ n ∈ (delete_node_and_related db node_id f1 f2).1.nodes,
        n.id ≠ node_id) ∧
      (∀ e ∈ (delete_node_and_related db node_id f1 f2).1.edges,
        e.source_node_id ≠ node_id ∧ e.target_node_id ≠ node_id) ∧
      (∀ t ∈ (delete_node_and_related db node_id f1 f2).1.traffic_index,
        ∀ e ∈ db.edges,
          e.source_node_id = node_id ∨ e.target_node_id = node_id →
            t.edge_id ≠ some e.id) ∧
      (∀ p ∈ (delete_node_and_related db node_id f1 f2).1.parser_outputs,
        p.node_id ≠ node_id)) ∧
    (∀ f1' f2' : Bool,
      delete_node_and_related db node_id f1 f2 =
        delete_node_and_related db node_id f1' f2') := by
  refine ⟨?_, ?_, fun _ _ => rfl⟩
  · intro habs
    unfold delete_node_and_related
    have : db.nodes.find? (fun n => n.id = node_id) = none := by
      rw [List.find?_eq_none]
      intro n hn
      simpa using habs n hn
    rw [this]
  · intro hpres
    have hfind : (db.nodes.find? (fun n => n.id = node_id)).isSome := by
      obtain ⟨n, hn, hid⟩ := hpres
      rcases h : db.nodes.find? (fun n => n.id = node_id) with _ | m
      · rw [List.find?_eq_none] at h
        exact absurd (by simpa using hid) (h n hn)
      · rw [h]
        rfl
    obtain ⟨m, hm⟩ := Option.isSome_iff_exists.mp hfind
    unfold delete_node_and_related
    rw [hm]
    refine ⟨rfl, ?_, ?_, ?_, ?_⟩
    · intro n hn
      have := (List.mem_filter.mp hn).2
      simpa using this
    · intro e he
      have := (List.mem_filter.mp he).2
      simpa using this
    · intro t ht e he hrel heq
      have heid : e.id ∈ (db.edges.filter (fun e =>
          e.source_node_id = node_id || e.target_node_id = node_id)).map
          (fun e => e.id) := by
        simp only [List.mem_map]
        exact ⟨e, List.mem_filter.mpr ⟨he, by simpa using hrel⟩, rfl⟩
      set edge_ids := (db.edges.filter (fun e =>
        e.source_node_id = node_id || e.target_node_id = node_id)).map
        (fun e => e.id) with hids
      simp only at ht
      rw [if_neg (by
        intro hempty
        rw [List.isEmpty_iff] at hempty
        rw [hempty] at heid
        simp at heid)] at ht
      have hpred := (List.mem_filter.mp ht).2
      rw [heq] at hpred
      simp only [decide_eq_true_eq] at hpred
      exact hpred (by simpa using heid)
    · intro p hp
      have := (List.mem_filter.mp hp).2
      simpa using this

/-- Witness for C5: deleting the absent id `"ghost"` from the sample
store fails with 404 leaving it unchanged, while deleting `"n1"`
succeeds and leaves no traffic entry of an edge touching `"n1"`. -/
theorem c5_delete_node_cascade_witness :
    delete_node_and_related sampleStore ("ghost") false false =
      (sampleStore, .error 404) ∧
    (delete_node_and_related sampleStore ("n1") false false).2 = .ok () ∧
    (∀ t ∈ (delete_node_and_related sampleStore ("n1") false false).1.traffic_index,
      ∀ e ∈ sampleStore.edges,
        e.source_node_id = "n1" ∨ e.target_node_id = "n1" →
          t.edge_id ≠ some e.id) := by
  have hpres : ∃ n ∈ sampleStore.nodes, n.id = "n1" :=
    ⟨⟨"n1", "Home", "home screen", some ("s1.png"), none⟩, by decide, rfl⟩
  refine ⟨?_, ?_, ?_⟩
  · exact (c5_delete_node_cascade sampleStore ("ghost") false false).1 (by decide)
  · exact ((c5_delete_node_cascade sampleStore ("n1") false false).2.1 hpres).1
  · exact ((c5_delete_node_cascade sampleStore ("n1") false false).2.1 hpres).2.2.2.1

lemma detectionStep_fixed (pool : List AdbNode) (w h : Int) (m : List Bool)
    (det : VisionDetection) (uid : Nat) :
    (detectionStep pool w h m det uid).1.uid = uid ∧
    (detectionStep pool w h m det uid).1.type = det.type ∧
    (detectionStep pool w h m det uid).1.bounds =
      convert_omni_bbox det.bbox w h := by
  unfold detectionStep
  cases hb : (bestAux (convert_omni_bbox det.bbox w h) (pool.zip m) 0 (0, none)).2 <;>
    simp [hb]

lemma run_elements_maps (pool : List AdbNode) (w h : Int)
    (dets : List VisionDetection) :
    ∀ (m : List Bool) (es : List Element) (u : Nat),
      ((dets.foldl (processDetection pool w h) (m, es, u)).2.1).map
          (fun e => e.uid) =
        es.map (fun e => e.uid) ++ List.range' u dets.length ∧
      ((dets.foldl (processDetection pool w h) (m, es, u)).2.1).map
          (fun e => (e.type, e.bounds)) =
        es.map (fun e => (e.type, e.bounds)) ++
          dets.map (fun d => (d.type, convert_omni_bbox d.bbox w h)) := by
  induction dets with
  | nil => intro m es u; simp
  | cons d ds ih =>
    intro m es u
    simp only [List.foldl_cons]
    have hstep : processDetection pool w h (m, es, u) d =
        ((detectionStep pool w h m d u).2,
          es ++ [(detectionStep pool w h m d u).1], u + 1) := rfl
    rw [hstep]
    obtain ⟨h1, h2⟩ := ih (detectionStep pool w h m d u).2
      (es ++ [(detectionStep pool w h m d u).1]) (u + 1)
    obtain ⟨hu, ht, hbnd⟩ := detectionStep_fixed pool w h m d u
    constructor
    · rw [h1, List.map_append, List.length_cons, List.range'_succ]
      simp [hu]
    · rw [h2, List.map_append, List.map_cons]
      simp [ht, hbnd]

lemma merged_elements_length (parsed : Option XMLTree)
    (omni : List VisionDetection) (w h : Int) :
    (generate_merged_json parsed omni w h).elements.length = omni.length := by
  have h2 := (run_elements_maps (extract_adb_nodes parsed) w h omni
    (List.replicate (extract_adb_nodes parsed).length false) [] 1).2
  have hlen := congrArg List.length h2
  simpa using hlen

/-- C1: for N detections the merged output has exactly N elements, one
per detection in input order — uids are the contiguous sequence 1..N
and the i-th element carries the i-th detection's type and converted
bounds — so no element stems from an unmatched accessibility node. -/
theorem c1_one_element_per_detection (parsed : Option XMLTree)
    (omni : List VisionDetection) (screen_w screen_h : Int) :
    (generate_merged_json parsed omni screen_w screen_h).elements.length =
      omni.length ∧
    (generate_merged_json parsed omni screen_w screen_h).elements.map
        (fun e => e.uid) = List.range' 1 omni.length ∧
    (generate_merged_json parsed omni screen_w screen_h).elements.map
        (fun e => (e.type, e.bounds)) =
      omni.map (fun d => (d.type, convert_omni_bbox d.bbox screen_w screen_h)) := by
  obtain ⟨h1, h2⟩ := run_elements_maps (extract_adb_nodes parsed) screen_w screen_h
    omni (List.replicate (extract_adb_nodes parsed).length false) [] 1
  have helems : (generate_merged_json parsed omni screen_w screen_h).elements =
      (omni.foldl
        (processDetection (extract_adb_nodes parsed) screen_w screen_h)
        (List.replicate (extract_adb_nodes parsed).length false, [], 1)).2.1 := rfl
  refine ⟨merged_elements_length parsed omni screen_w screen_h, ?_, ?_⟩
  · simpa using helems ▸ h1
  · simpa using helems ▸ h2

/-- Full characterization of the inner matching scan: the best value
only grows; the result is either the initial state unchanged or a
strictly-better unmatched candidate above the threshold that beats every
earlier unmatched candidate; and every unmatched entry is either below
the threshold or bounded by the final best value. -/
lemma bestAux_spec (vb : Rect) (l : List (AdbNode × Bool)) :
    ∀ (i0 : Nat) (b : ℚ) (r : Option Nat),
      b ≤ (bestAux vb l i0 (b, r)).1 ∧
      (((bestAux vb l i0 (b, r)).2 = r ∧ (bestAux vb l i0 (b, r)).1 = b) ∨
        (∃ k, k < l.length ∧ (bestAux vb l i0 (b, r)).2 = some (i0 + k) ∧
          (l.getD k (default, true)).2 = false ∧
          (bestAux vb l i0 (b, r)).1 =
            calculate_iou vb (l.getD k (default, true)).1.bounds ∧
          3 / 10 < (bestAux vb l i0 (b, r)).1 ∧
          b < (bestAux vb l i0 (b, r)).1 ∧
          ∀ j, j < k → (l.getD j (default, true)).2 = false →
            calculate_iou vb (l.getD j (default, true)).1.bounds ≤ 3 / 10 ∨
            calculate_iou vb (l.getD j (default, true)).1.bounds <
              (bestAux vb l i0 (b, r)).1)) ∧
      (∀ k, k < l.length → (l.getD k (default, true)).2 = false →
        calculate_iou vb (l.getD k (default, true)).1.bounds ≤ 3 / 10 ∨
        calculate_iou vb (l.getD k (default, true)).1.bounds ≤
          (bestAux vb l i0 (b, r)).1) := by
  induction l with
  | nil =>
    intro i0 b r
    refine ⟨le_refl b, Or.inl ⟨rfl, rfl⟩, ?_⟩
    intro k hk
    simp at hk
  | cons p rest ih =>
    intro i0 b r
    obtain ⟨nd, m⟩ := p
    cases m with
    | true =>
      have heq : bestAux vb ((nd, true) :: rest) i0 (b, r) =
          bestAux vb rest (i0 + 1) (b, r) := by
        simp [bestAux]
      rw [heq]
      obtain ⟨ih1, ih2, ih3⟩ := ih (i0 + 1) b r
      refine ⟨ih1, ?_, ?_⟩
      · rcases ih2 with hsame | ⟨k, hk, h2, h3, h4, h5, h6, h7⟩
        · exact Or.inl hsame
        · refine Or.inr ⟨k + 1, by simpa using Nat.succ_lt_succ hk, ?_,
            by simpa using h3, by simpa using h4, h5, h6, ?_⟩
          · rw [h2]
            congr 1
            omega
          · intro j hj hunm
            cases j with
            | zero => simp at hunm
            | succ j' =>
              have := h7 j' (Nat.lt_of_succ_lt_succ hj) (by simpa using hunm)
              simpa using this
      · intro k hk hunm
        cases k with
        | zero => simp at hunm
        | succ k' =>
          simp only [List.length_cons] at hk
          have := ih3 k' (Nat.lt_of_succ_lt_succ hk) (by simpa using hunm)
          simpa using this
    | false =>
      have heq0 : bestAux vb ((nd, false) :: rest) i0 (b, r) =
          (if 3 / 10 < calculate_iou vb nd.bounds ∧ b < calculate_iou vb nd.bounds
           then bestAux vb rest (i0 + 1) (calculate_iou vb nd.bounds, some i0)
           else bestAux vb rest (i0 + 1) (b, r)) := by
        simp [bestAux]
      by_cases hc : 3 / 10 < calculate_iou vb nd.bounds ∧
          b < calculate_iou vb nd.bounds
      · rw [heq0, if_pos hc]
        obtain ⟨ih1, ih2, ih3⟩ := ih (i0 + 1) (calculate_iou vb nd.bounds) (some i0)
        refine ⟨le_trans (le_of_lt hc.2) ih1, ?_, ?_⟩
        · rcases ih2 with ⟨h2, h1⟩ | ⟨k, hk, h2, h3, h4, h5, h6, h7⟩
          · refine Or.inr ⟨0, Nat.succ_pos _, ?_, by simp, ?_, ?_, ?_, ?_⟩
            · rw [h2]
              simp
            · rw [h1]
              simp
            · rw [h1]
              exact hc.1
            · rw [h1]
              exact hc.2
            · intro j hj
              exact absurd hj (Nat.not_lt_zero j)
          · refine Or.inr ⟨k + 1, by simpa using Nat.succ_lt_succ hk, ?_,
              by simpa using h3, by simpa using h4, h5, lt_trans hc.2 h6, ?_⟩
            · rw [h2]
              congr 1
              omega
            · intro j hj hunm
              cases j with
              | zero =>
                refine Or.inr ?_
                simpa using h6
              | succ j' =>
                have := h7 j' (Nat.lt_of_succ_lt_succ hj) (by simpa using hunm)
                simpa using this
        · intro k hk hunm
          cases k with
          | zero =>
            refine Or.inr ?_
            simpa using ih1
          | succ k' =>
            simp only [List.length_cons] at hk
            have := ih3 k' (Nat.lt_of_succ_lt_succ hk) (by simpa using hunm)
            simpa using this
      · rw [heq0, if_neg hc]
        obtain ⟨ih1, ih2, ih3⟩ := ih (i0 + 1) b r
        have hnd : calculate_iou vb nd.bounds ≤ 3 / 10 ∨
            calculate_iou vb nd.bounds ≤ b := by
          by_cases h310 : 3 / 10 < calculate_iou vb nd.bounds
          · right
            by_contra hb
            exact hc ⟨h310, lt_of_not_le hb⟩
          · exact Or.inl (le_of_not_lt h310)
        refine ⟨ih1, ?_, ?_⟩
        · rcases ih2 with hsame | ⟨k, hk, h2, h3, h4, h5, h6, h7⟩
          · exact Or.inl hsame
          · refine Or.inr ⟨k + 1, by simpa using Nat.succ_lt_succ hk, ?_,
              by simpa using h3, by simpa using h4, h5, h6, ?_⟩
            · rw [h2]
              congr 1
              omega
            · intro j hj hunm
              cases j with
              | zero =>
                simp only [List.getD_cons_zero]
                rcases hnd with hle | hle
                · exact Or.inl hle
                · exact Or.inr (lt_of_le_of_lt hle h6)
              | succ j' =>
                have := h7 j' (Nat.lt_of_succ_lt_succ hj) (by simpa using hunm)
                simpa using this
        · intro k hk hunm
          cases k with
          | zero =>
            simp only [List.getD_cons_zero]
            rcases hnd with hle | hle
            · exact Or.inl hle
            · exact Or.inr (le_trans hle ih1)
          | succ k' =>
            simp only [List.length_cons] at hk
            have := ih3 k' (Nat.lt_of_succ_lt_succ hk) (by simpa using hunm)
            simpa using this

lemma zip_getD (pool : List AdbNode) (m : List Bool)
    (hlen : m.length = pool.length) (k : Nat) (hk : k < pool.length) :
    (pool.zip m).getD k (default, true) =
      (pool.getD k default, m.getD k false) := by
  have hkz : k < (pool.zip m).length := by
    rw [List.length_zip, hlen, min_self]
    exact hk
  rw [List.getD_eq_getElem _ _ hkz, List.getElem_zip,
    List.getD_eq_getElem _ _ hk, List.getD_eq_getElem _ _ (by omega)]

lemma zip_length_eq (pool : List AdbNode) (m : List Bool)
    (hlen : m.length = pool.length) :
    (pool.zip m).length = pool.length := by
  rw [List.length_zip, hlen, min_self]

lemma bestAux_none_iff (vb : Rect) (pool : List AdbNode) (m : List Bool)
    (hlen : m.length = pool.length) :
    (bestAux vb (pool.zip m) 0 (0, none)).2 = none ↔
      ∀ j, j < pool.length → m.getD j false = false →
        calculate_iou vb (pool.getD j default).bounds ≤ 3 / 10 := by
  obtain ⟨h1, h2, h3⟩ := bestAux_spec vb (pool.zip m) 0 0 none
  have hzlen := zip_length_eq pool m hlen
  constructor
  · intro hnone j hj hm
    have hj' : j < (pool.zip m).length := by
      rw [hzlen]
      exact hj
    have hstep := h3 j hj' (by rw [zip_getD pool m hlen j hj]; exact hm)
    rw [zip_getD pool m hlen j hj] at hstep
    rcases hstep with hle | hle
    · exact hle
    · rcases h2 with ⟨_, hb⟩ | ⟨k, _, hsome, _⟩
      · rw [hb] at hle
        exact le_trans hle (by norm_num)
      · rw [hnone] at hsome
        exact absurd hsome (by simp)
  · intro hall
    rcases h2 with ⟨hr, _⟩ | ⟨k, hk, hsome, hunm, hb1, hthr, _, _⟩
    · exact hr
    · exfalso
      have hk' : k < pool.length := by
        rw [← hzlen]
        exact hk
      rw [zip_getD pool m hlen k hk'] at hunm hb1
      have := hall k hk' hunm
      rw [← hb1] at this
      exact absurd hthr (not_lt_of_le this)

lemma bestAux_some_spec (vb : Rect) (pool : List AdbNode) (m : List Bool)
    (hlen : m.length = pool.length) (i : Nat)
    (hsome : (bestAux vb (pool.zip m) 0 (0, none)).2 = some i) :
    i < pool.length ∧ m.getD i false = false ∧
    3 / 10 < calculate_iou vb (pool.getD i default).bounds ∧
    (∀ j, j < pool.length → m.getD j false = false →
      calculate_iou vb (pool.getD j default).bounds ≤
        calculate_iou vb (pool.getD i default).bounds) ∧
    (∀ j, j < i → m.getD j false = false →
      calculate_iou vb (pool.getD j default).bounds <
        calculate_iou vb (pool.getD i default).bounds) := by
  obtain ⟨h1, h2, h3⟩ := bestAux_spec vb (pool.zip m) 0 0 none
  have hzlen := zip_length_eq pool m hlen
  rcases h2 with ⟨hr, _⟩ | ⟨k, hk, hsome', hunm, hb1, hthr, _, hfirst⟩
  · rw [hr] at hsome
    exact absurd hsome (by simp)
  · rw [hsome'] at hsome
    have hki : k = i := by simpa using hsome
    subst hki
    have hk' : k < pool.length := by
      rw [← hzlen]
      exact hk
    rw [zip_getD pool m hlen k hk'] at hunm hb1
    refine ⟨hk', hunm, by rw [← hb1]; exact hthr, ?_, ?_⟩
    · intro j hj hm
      have hj' : j < (pool.zip m).length := by
        rw [hzlen]
        exact hj
      have hstep := h3 j hj' (by rw [zip_getD pool m hlen j hj]; exact hm)
      rw [zip_getD pool m hlen j hj] at hstep
      rcases hstep with hle | hle
      · rw [← hb1]
        exact le_trans hle (le_of_lt hthr)
      · rw [← hb1]
        exact hle
    · intro j hj hm
      have hj' : j < pool.length := lt_trans hj hk'
      have hstep := hfirst j hj (by rw [zip_getD pool m hlen j hj']; exact hm)
      rw [zip_getD pool m hlen j hj'] at hstep
      rcases hstep with hle | hle
      · rw [← hb1]
        exact lt_of_le_of_lt hle hthr
      · rw [← hb1]
        exact hle

lemma calculate_iou_formula (A B : Rect) :
    calculate_iou A B =
      if ((boxArea A : ℚ) + (boxArea B : ℚ) - (interArea A B : ℚ)) = 0 then 0
      else (interArea A B : ℚ) /
        ((boxArea A : ℚ) + (boxArea B : ℚ) - (interArea A B : ℚ)) := rfl

lemma detectionStep_none_eq (pool : List AdbNode) (w h : Int) (m : List Bool)
    (det : VisionDetection) (uid : Nat)
    (hnone : (bestAux (convert_omni_bbox det.bbox w h) (pool.zip m) 0
      (0, none)).2 = none) :
    detectionStep pool w h m det uid =
      (⟨uid, "vision_only", det.type, det.content,
        convert_omni_bbox det.bbox w h, none⟩, m) := by
  simp only [detectionStep]
  rw [hnone]

lemma detectionStep_some_parts (pool : List AdbNode) (w h : Int)
    (m : List Bool) (det : VisionDetection) (uid : Nat) (i : Nat)
    (hsome : (bestAux (convert_omni_bbox det.bbox w h) (pool.zip m) 0
      (0, none)).2 = some i) :
    (detectionStep pool w h m det uid).1.source = "vision_enriched" ∧
    (detectionStep pool w h m det uid).2 = m.set i true ∧
    (detectionStep pool w h m det uid).1.adb_attributes =
      some ⟨(pool.getD i default).text, (pool.getD i default).resource_id,
        (pool.getD i default).description, (pool.getD i default).cls,
        (pool.getD i default).actions.clickable,
        (pool.getD i default).actions.scrollable,
        (pool.getD i default).actions.editable,
        (pool.getD i default).actions.checked,
        (pool.getD i default).actions.selected⟩ := by
  simp only [detectionStep]
  rw [hsome]
  exact ⟨rfl, rfl, rfl⟩

/-- C2: a detection is enriched exactly when some still-unmatched pool
node overlaps it with IoU strictly above 0.3; the chosen node maximizes
IoU among unmatched nodes, strictly beating every unmatched node that
comes earlier in the pool (ties keep the first); when every unmatched
node is at or below the threshold, the element stays `vision_only` with
the vision content and no `adb_attributes` bundle. -/
theorem c2_best_match_threshold (pool : List AdbNode) (w h : Int)
    (m : List Bool) (det : VisionDetection) (uid : Nat)
    (hlen : m.length = pool.length) :
    ((detectionStep pool w h m det uid).1.source = "vision_enriched" ↔
      ∃ j, j < pool.length ∧ m.getD j false = false ∧
        3 / 10 < calculate_iou (convert_omni_bbox det.bbox w h)
          (pool.getD j default).bounds) ∧
    (∀ i, (bestAux (convert_omni_bbox det.bbox w h) (pool.zip m) 0
        (0, none)).2 = some i →
      i < pool.length ∧ m.getD i false = false ∧
      3 / 10 < calculate_iou (convert_omni_bbox det.bbox w h)
        (pool.getD i default).bounds ∧
      (∀ j, j < pool.length → m.getD j false = false →
        calculate_iou (convert_omni_bbox det.bbox w h)
            (pool.getD j default).bounds ≤
          calculate_iou (convert_omni_bbox det.bbox w h)
            (pool.getD i default).bounds) ∧
      (∀ j, j < i → m.getD j false = false →
        calculate_iou (convert_omni_bbox det.bbox w h)
            (pool.getD j default).bounds <
          calculate_iou (convert_omni_bbox det.bbox w h)
            (pool.getD i default).bounds)) ∧
    ((∀ j, j < pool.length → m.getD j false = false →
        calculate_iou (convert_omni_bbox det.bbox w h)
          (pool.getD j default).bounds ≤ 3 / 10) →
      (detectionStep pool w h m det uid).1.source = "vision_only" ∧
      (detectionStep pool w h m det uid).1.content = det.content ∧
      (detectionStep pool w h m det uid).1.adb_attributes = none) := by
  refine ⟨?_,
    fun i hi => bestAux_some_spec (convert_omni_bbox det.bbox w h) pool m hlen i hi,
    ?_⟩
  · constructor
    · intro hsrc
      rcases hopt : (bestAux (convert_omni_bbox det.bbox w h) (pool.zip m) 0
          (0, none)).2 with _ | i
      · rw [detectionStep_none_eq pool w h m det uid hopt] at hsrc
        have hfalse : ("vision_only" : String) = "vision_enriched" := hsrc
        exact absurd hfalse (by decide)
      · obtain ⟨hi, hm, hthr, _, _⟩ :=
          bestAux_some_spec (convert_omni_bbox det.bbox w h) pool m hlen i hopt
        exact ⟨i, hi, hm, hthr⟩
    · rintro ⟨j, hj, hm, hthr⟩
      rcases hopt : (bestAux (convert_omni_bbox det.bbox w h) (pool.zip m) 0
          (0, none)).2 with _ | i
      · rw [bestAux_none_iff (convert_omni_bbox det.bbox w h) pool m hlen] at hopt
        exact absurd hthr (not_lt_of_le (hopt j hj hm))
      · exact (detectionStep_some_parts pool w h m det uid i hopt).1
  · intro hall
    have hnone :=
      (bestAux_none_iff (convert_omni_bbox det.bbox w h) pool m hlen).mpr hall
    rw [detectionStep_none_eq pool w h m det uid hnone]
    exact ⟨rfl, rfl, rfl⟩

/-- Witness for C2: against a far-away one-node pool the detection stays
`vision_only` with its content unchanged and no bundle. -/
theorem c2_best_match_threshold_witness :
    (detectionStep farPool 10 10 [false] spriteDet 1).1.source = "vision_only" ∧
    (detectionStep farPool 10 10 [false] spriteDet 1).1.content = "sprite" ∧
    (detectionStep farPool 10 10 [false] spriteDet 1).1.adb_attributes = none := by
  have hvb : convert_omni_bbox spriteDet.bbox 10 10 = ⟨0, 0, 1, 1⟩ := by
    simp only [spriteDet, convert_omni_bbox, pyTrunc]
    norm_num
  have hiou : calculate_iou (convert_omni_bbox spriteDet.bbox 10 10)
      ((farPool.getD 0 default)).bounds = 0 := by
    rw [hvb]
    have h1 : interArea ⟨0, 0, 1, 1⟩ (farPool.getD 0 default).bounds = 0 := by
      decide
    have h2 : boxArea (⟨0, 0, 1, 1⟩ : Rect) = 1 := by decide
    have h3 : boxArea (farPool.getD 0 default).bounds = 16 := by decide
    rw [calculate_iou_formula, h1, h2, h3]
    norm_num
  have hall : ∀ j, j < farPool.length → ([false] : List Bool).getD j false = false →
      calculate_iou (convert_omni_bbox spriteDet.bbox 10 10)
        (farPool.getD j default).bounds ≤ 3 / 10 := by
    intro j hj _
    have hj0 : j = 0 := by
      simp only [farPool, List.length_cons, List.length_nil] at hj
      omega
    subst hj0
    rw [hiou]
    norm_num
  have hres := (c2_best_match_threshold farPool 10 10 [false] spriteDet 1
    (by decide)).2.2 hall
  simpa [spriteDet] using hres

lemma intercalate_go_append (s : String) (as : List String) :
    ∀ acc : String, ∃ rest : String,
      String.intercalate.go acc s as = acc ++ rest := by
  induction as with
  | nil =>
    intro acc
    exact ⟨"", by simp [String.intercalate.go]⟩
  | cons a as ih =>
    intro acc
    obtain ⟨rest, hrest⟩ := ih (acc ++ s ++ a)
    refine ⟨s ++ a ++ rest, ?_⟩
    rw [String.intercalate.go, hrest]
    simp [String.append_assoc]

lemma append_ne_empty_left (c rest : String) (hc : c ≠ "") : c ++ rest ≠ "" := by
  intro hemp
  apply hc
  have hdata := congrArg String.data hemp
  rw [String.data_append] at hdata
  have hcd : c.data = [] := (List.append_eq_nil.mp (by simpa using hdata)).1
  cases c with
  | mk d =>
    simp only [String.data] at hcd
    simp [hcd]

lemma intercalate_space_ne_empty (c : String) (ts : List String) (hc : c ≠ "") :
    String.intercalate (" ") (c :: ts) ≠ "" := by
  obtain ⟨rest, hrest⟩ := intercalate_go_append (" ") ts c
  show String.intercalate.go c (" ") ts ≠ ""
  rw [hrest]
  exact append_ne_empty_left c rest hc

lemma childTexts_mem_ne_empty (pool : List AdbNode) (bi : Nat) (best : AdbNode) :
    ∀ x ∈ childTexts pool bi best, x ≠ "" := by
  intro x hx
  simp only [childTexts, List.mem_filterMap] at hx
  obtain ⟨p, _, hp⟩ := hx
  split_ifs at hp <;> simp_all

lemma childTexts_eq_filter_map (pool : List AdbNode) (bi : Nat) (best : AdbNode) :
    childTexts pool bi best =
      (pool.enum.filter (fun p => decide (p.1 ≠ bi) &&
        is_contained best.bounds p.2.bounds &&
        (decide (p.2.text ≠ "") || decide (p.2.description ≠ "")))).map
        (fun p => if p.2.text = "" then p.2.description else p.2.text) := by
  unfold childTexts
  generalize pool.enum = l
  induction l with
  | nil => rfl
  | cons p ps ih =>
    simp only [List.filterMap_cons, List.filter_cons]
    by_cases h1 : p.1 = bi
    · simp [h1, ih]
    · by_cases h2 : is_contained best.bounds p.2.bounds
      · by_cases h3 : (if p.2.text = "" then p.2.description else p.2.text) = ""
        · have hcond : ¬ (p.2.text ≠ "" ∨ p.2.description ≠ "") := by
            by_cases ht : p.2.text = "" <;> simp [ht] at h3 ⊢ <;> simp_all
          simp [h1, h2, h3, hcond, ih]
        · have hcond : p.2.text ≠ "" ∨ p.2.description ≠ "" := by
            by_cases ht : p.2.text = "" <;> simp [ht] at h3 ⊢ <;> simp_all
          simp [h1, h2, h3, hcond, ih]
      · simp [h1, h2, ih]

lemma detectionStep_some_content (pool : List AdbNode) (w h : Int)
    (m : List Bool) (det : VisionDetection) (uid : Nat) (i : Nat)
    (hsome : (bestAux (convert_omni_bbox det.bbox w h) (pool.zip m) 0
      (0, none)).2 = some i) :
    (detectionStep pool w h m det uid).1.content =
      (if (if (pool.getD i default).text = "" ∧
              (pool.getD i default).description = "" then
            if childTexts pool i (pool.getD i default) = [] then
              (pool.getD i default).text
            else String.intercalate (" ") (childTexts pool i (pool.getD i default))
          else (pool.getD i default).text) ≠ "" then
        (if (pool.getD i default).text = "" ∧
            (pool.getD i default).description = "" then
          if childTexts pool i (pool.getD i default) = [] then
            (pool.getD i default).text
          else String.intercalate (" ") (childTexts pool i (pool.getD i default))
        else (pool.getD i default).text)
      else if (pool.getD i default).description ≠ "" then
        (pool.getD i default).description
      else det.content) := by
  simp only [detectionStep]
  rw [hsome]

/-- C3: an enriched element's content follows the priority (a) matched
node's text, (b) else its description, (c) else the space-joined texts
(text preferred over description, non-empty only) of the pool nodes
other than the matched one whose bounds are contained — inclusively on
all four edges — in the matched node's bounds, in pool order and
regardless of match state, (d) else the vision content unchanged.  The
final conjunct characterizes the harvest list per those words. -/
theorem c3_content_priority (pool : List AdbNode) (w h : Int) (m : List Bool)
    (det : VisionDetection) (uid : Nat) (i : Nat)
    (hsome : (bestAux (convert_omni_bbox det.bbox w h) (pool.zip m) 0
      (0, none)).2 = some i) :
    ((pool.getD i default).text ≠ "" →
      (detectionStep pool w h m det uid).1.content = (pool.getD i default).text) ∧
    ((pool.getD i default).text = "" → (pool.getD i default).description ≠ "" →
      (detectionStep pool w h m det uid).1.content =
        (pool.getD i default).description) ∧
    ((pool.getD i default).text = "" → (pool.getD i default).description = "" →
      childTexts pool i (pool.getD i default) ≠ [] →
      (detectionStep pool w h m det uid).1.content =
        String.intercalate (" ") (childTexts pool i (pool.getD i default))) ∧
    ((pool.getD i default).text = "" → (pool.getD i default).description = "" →
      childTexts pool i (pool.getD i default) = [] →
      (detectionStep pool w h m det uid).1.content = det.content) ∧
    childTexts pool i (pool.getD i default) =
      (pool.enum.filter (fun p => decide (p.1 ≠ i) &&
        is_contained (pool.getD i default).bounds p.2.bounds &&
        (decide (p.2.text ≠ "") || decide (p.2.description ≠ "")))).map
        (fun p => if p.2.text = "" then p.2.description else p.2.text) := by
  have hc := detectionStep_some_content pool w h m det uid i hsome
  refine ⟨?_, ?_, ?_, ?_, childTexts_eq_filter_map pool i (pool.getD i default)⟩
  · intro ht
    rw [hc, if_neg (show ¬ ((pool.getD i default).text = "" ∧
        (pool.getD i default).description = "") from fun hand => ht hand.1),
      if_pos ht]
  · intro ht hd
    rw [hc, if_neg (show ¬ ((pool.getD i default).text = "" ∧
        (pool.getD i default).description = "") from fun hand => hd hand.2),
      if_neg (show ¬ ((pool.getD i default).text ≠ "") from fun hne => hne ht),
      if_pos hd]
  · intro ht hd hcts
    rw [hc, if_pos (show (pool.getD i default).text = "" ∧
        (pool.getD i default).description = "" from ⟨ht, hd⟩), if_neg hcts]
    obtain ⟨c, ts, hcons⟩ := List.exists_cons_of_ne_nil hcts
    rw [hcons]
    rw [if_pos (intercalate_space_ne_empty c ts
      (childTexts_mem_ne_empty pool i (pool.getD i default) c
        (hcons ▸ List.mem_cons_self c ts)))]
  · intro ht hd hcts
    rw [hc, if_pos (show (pool.getD i default).text = "" ∧
        (pool.getD i default).description = "" from ⟨ht, hd⟩), if_pos hcts,
      if_neg (show ¬ ((pool.getD i default).text ≠ "") from fun hne => hne ht),
      if_neg (show ¬ ((pool.getD i default).description ≠ "") from
        fun hne => hne hd)]

lemma bestAux_cons_unmatched (vb : Rect) (nd : AdbNode)
    (rest : List (AdbNode × Bool)) (i0 : Nat) (b : ℚ) (r : Option Nat) :
    bestAux vb ((nd, false) :: rest) i0 (b, r) =
      if 3 / 10 < calculate_iou vb nd.bounds ∧ b < calculate_iou vb nd.bounds
      then bestAux vb rest (i0 + 1) (calculate_iou vb nd.bounds, some i0)
      else bestAux vb rest (i0 + 1) (b, r) := by
  simp [bestAux]

/-- Concrete evaluation of the matcher on the container pool: the
full-screen detection picks the container node (index 0). -/
lemma containerPool_bestAux :
    (bestAux (convert_omni_bbox fullDet.bbox 10 10)
      (containerPool.zip [false, false, false, false]) 0 (0, none)).2 =
      some 0 := by
  have hvb : convert_omni_bbox fullDet.bbox 10 10 = ⟨0, 0, 10, 10⟩ := by
    simp only [fullDet, convert_omni_bbox, pyTrunc]
    norm_num
  have hi0 : calculate_iou (⟨0, 0, 10, 10⟩ : Rect) (⟨0, 0, 10, 10⟩ : Rect) = 1 :=
    calculate_iou_self _ (by norm_num) (by norm_num)
  have hi1 : calculate_iou (⟨0, 0, 10, 10⟩ : Rect) (⟨0, 0, 4, 4⟩ : Rect) =
      16 / 100 := by
    rw [calculate_iou_formula,
      show interArea ⟨0, 0, 10, 10⟩ ⟨0, 0, 4, 4⟩ = 16 from by decide,
      show boxArea (⟨0, 0, 10, 10⟩ : Rect) = 100 from by decide,
      show boxArea (⟨0, 0, 4, 4⟩ : Rect) = 16 from by decide]
    norm_num
  have hi2 : calculate_iou (⟨0, 0, 10, 10⟩ : Rect) (⟨4, 4, 8, 8⟩ : Rect) =
      16 / 100 := by
    rw [calculate_iou_formula,
      show interArea ⟨0, 0, 10, 10⟩ ⟨4, 4, 8, 8⟩ = 16 from by decide,
      show boxArea (⟨0, 0, 10, 10⟩ : Rect) = 100 from by decide,
      show boxArea (⟨4, 4, 8, 8⟩ : Rect) = 16 from by decide]
    norm_num
  have hi3 : calculate_iou (⟨0, 0, 10, 10⟩ : Rect) (⟨11, 11, 20, 20⟩ : Rect) =
      0 := by
    rw [calculate_iou_formula,
      show interArea ⟨0, 0, 10, 10⟩ ⟨11, 11, 20, 20⟩ = 0 from by decide,
      show boxArea (⟨0, 0, 10, 10⟩ : Rect) = 100 from by decide,
      show boxArea (⟨11, 11, 20, 20⟩ : Rect) = 81 from by decide]
    norm_num
  rw [hvb]
  simp only [containerPool, List.zip_cons_cons, List.zip_nil_right]
  rw [bestAux_cons_unmatched]
  dsimp only
  rw [hi0, if_pos (by norm_num : (3 : ℚ) / 10 < 1 ∧ (0 : ℚ) < 1)]
  rw [bestAux_cons_unmatched]
  dsimp only
  rw [hi1, if_neg (by norm_num)]
  rw [bestAux_cons_unmatched]
  dsimp only
  rw [hi2, if_neg (by norm_num)]
  rw [bestAux_cons_unmatched]
  dsimp only
  rw [hi3, if_neg (by norm_num)]
  rfl

/-- Witness for C3 (harvest branch): the matched container has no text
or description, so the contained `Song Title` and `Artist` nodes are
joined with a space; the non-contained `Elsewhere` node contributes
nothing. -/
theorem c3_content_priority_witness :
    (detectionStep containerPool 10 10 [false, false, false, false]
      fullDet 1).1.content = "Song Title Artist" := by
  have hct : childTexts containerPool 0 (containerPool.getD 0 default) =
      ["Song Title", "Artist"] := by decide
  have hres := (c3_content_priority containerPool 10 10
    [false, false, false, false] fullDet 1 0 containerPool_bestAux).2.2.1 rfl rfl
    (by rw [hct]; simp)
  rw [hres, hct]
  decide

lemma detectionStep_matched_cases (pool : List AdbNode) (w h : Int)
    (m : List Bool) (det : VisionDetection) (uid : Nat) :
    ((detectionStep pool w h m det uid).1.source = "vision_only" ∧
      (detectionStep pool w h m det uid).2 = m) ∨
    (∃ i, (bestAux (convert_omni_bbox det.bbox w h) (pool.zip m) 0
        (0, none)).2 = some i ∧
      (detectionStep pool w h m det uid).1.source = "vision_enriched" ∧
      (detectionStep pool w h m det uid).2 = m.set i true) := by
  rcases hopt : (bestAux (convert_omni_bbox det.bbox w h) (pool.zip m) 0
      (0, none)).2 with _ | i
  · left
    rw [detectionStep_none_eq pool w h m det uid hopt]
    exact ⟨rfl, rfl⟩
  · right
    exact ⟨i, rfl, (detectionStep_some_parts pool w h m det uid i hopt).1,
      (detectionStep_some_parts pool w h m det uid i hopt).2.1⟩

lemma set_true_count (m : List Bool) (i : Nat) (hi : i < m.length)
    (hf : m.getD i false = false) :
    (m.set i true).count true = m.count true + 1 := by
  induction m generalizing i with
  | nil => simp at hi
  | cons x xs ih =>
    cases i with
    | zero =>
      simp only [List.getD_cons_zero] at hf
      subst hf
      simp [List.count_cons]
    | succ i' =>
      simp only [List.getD_cons_succ] at hf
      simp only [List.length_cons] at hi
      simp only [List.set, List.count_cons,
        ih i' (Nat.lt_of_succ_lt_succ hi) hf]
      omega

lemma set_true_getD_mono (m : List Bool) (i j : Nat)
    (h : m.getD j false = true) : (m.set i true).getD j false = true := by
  induction m generalizing i j with
  | nil => simp at h
  | cons x xs ih =>
    cases i with
    | zero =>
      cases j with
      | zero => simp
      | succ j' => simpa using h
    | succ i' =>
      cases j with
      | zero => simpa using h
      | succ j' =>
        simp only [List.set, List.getD_cons_succ] at h ⊢
        exact ih i' j' h

lemma run_enriched_count (pool : List AdbNode) (w h : Int)
    (dets : List VisionDetection) :
    ∀ (m : List Bool) (es : List Element) (u : Nat), m.length = pool.length →
      (dets.foldl (processDetection pool w h) (m, es, u)).1.length =
        pool.length ∧
      (dets.foldl (processDetection pool w h) (m, es, u)).1.count true +
          (es.filter (fun e => e.source = "vision_enriched")).length =
        m.count true +
          (((dets.foldl (processDetection pool w h) (m, es, u)).2.1).filter
            (fun e => e.source = "vision_enriched")).length ∧
      (∀ j, m.getD j false = true →
        (dets.foldl (processDetection pool w h) (m, es, u)).1.getD j false =
          true) := by
  induction dets with
  | nil =>
    intro m es u hlen
    exact ⟨hlen, rfl, fun j hj => hj⟩
  | cons d ds ih =>
    intro m es u hlen
    simp only [List.foldl_cons]
    have hstep : processDetection pool w h (m, es, u) d =
        ((detectionStep pool w h m d u).2,
          es ++ [(detectionStep pool w h m d u).1], u + 1) := rfl
    rw [hstep]
    rcases detectionStep_matched_cases pool w h m d u with
      ⟨hsrc, hm⟩ | ⟨i, hopt, hsrc, hm⟩
    · have hrec := ih (detectionStep pool w h m d u).2
        (es ++ [(detectionStep pool w h m d u).1]) (u + 1)
        (by rw [hm]; exact hlen)
      refine ⟨hrec.1, ?_, ?_⟩
      · have hfl : ((es ++ [(detectionStep pool w h m d u).1]).filter
            (fun e => e.source = "vision_enriched")).length =
            (es.filter (fun e => e.source = "vision_enriched")).length := by
          rw [List.filter_append, List.length_append]
          simp [List.filter_cons, hsrc]
        have hcnt : ((detectionStep pool w h m d u).2).count true =
            m.count true := by rw [hm]
        have h2 := hrec.2.1
        rw [hfl, hcnt] at h2
        exact h2
      · intro j hj
        exact hrec.2.2 j (by rw [hm]; exact hj)
    · have hrec := ih (detectionStep pool w h m d u).2
        (es ++ [(detectionStep pool w h m d u).1]) (u + 1)
        (by rw [hm, List.length_set]; exact hlen)
      obtain ⟨hilt, hunm, _⟩ :=
        bestAux_some_spec (convert_omni_bbox d.bbox w h) pool m hlen i hopt
      have hcount : (detectionStep pool w h m d u).2.count true =
          m.count true + 1 := by
        rw [hm]
        exact set_true_count m i (by rw [hlen]; exact hilt) hunm
      refine ⟨hrec.1, ?_, ?_⟩
      · have hfl : ((es ++ [(detectionStep pool w h m d u).1]).filter
            (fun e => e.source = "vision_enriched")).length =
            (es.filter (fun e => e.source = "vision_enriched")).length + 1 := by
          rw [List.filter_append, List.length_append]
          simp [List.filter_cons, hsrc]
        have h2 := hrec.2.1
        rw [hfl, hcount] at h2
        omega
      · intro j hj
        refine hrec.2.2 j ?_
        rw [hm]
        exact set_true_getD_mono m i j hj

/-- C4: matching is exclusive — across one reconciliation pass at most
`min(N, M)` elements are enriched (N detections, M pool nodes); a step
only ever consumes a node that is still unmatched and marks exactly that
node as matched; and a node once matched stays matched through every
later step, so no accessibility node enriches two elements. -/
theorem c4_matching_exclusivity (parsed : Option XMLTree)
    (omni : List VisionDetection) (w h : Int) :
    (((generate_merged_json parsed omni w h).elements.filter
        (fun e => e.source = "vision_enriched")).length ≤
      min omni.length (extract_adb_nodes parsed).length) ∧
    (∀ (pool : List AdbNode) (m : List Bool) (det : VisionDetection)
        (uid i : Nat), m.length = pool.length →
      (bestAux (convert_omni_bbox det.bbox w h) (pool.zip m) 0
        (0, none)).2 = some i →
      m.getD i false = false ∧
      (detectionStep pool w h m det uid).2 = m.set i true) ∧
    (∀ (pool : List AdbNode) (m : List Bool) (det : VisionDetection)
        (uid j : Nat), m.getD j false = true →
      (detectionStep pool w h m det uid).2.getD j false = true) := by
  refine ⟨?_, ?_, ?_⟩
  · have hrun := run_enriched_count (extract_adb_nodes parsed) w h omni
      (List.replicate (extract_adb_nodes parsed).length false) [] 1
      (by rw [List.length_replicate])
    have hrep : (List.replicate (extract_adb_nodes parsed).length false).count
        true = 0 := by
      simp [List.count_replicate]
    have helems : (generate_merged_json parsed omni w h).elements =
        (omni.foldl
          (processDetection (extract_adb_nodes parsed) w h)
          (List.replicate (extract_adb_nodes parsed).length false, [], 1)).2.1 :=
      rfl
    have h2 := hrun.2.1
    rw [hrep] at h2
    simp only [List.filter_nil, List.length_nil] at h2
    have hcle := List.count_le_length (a := true)
      (l := (omni.foldl (processDetection (extract_adb_nodes parsed) w h)
        (List.replicate (extract_adb_nodes parsed).length false, [], 1)).1)
    have hN : ((generate_merged_json parsed omni w h).elements.filter
        (fun e => e.source = "vision_enriched")).length ≤ omni.length := by
      calc ((generate_merged_json parsed omni w h).elements.filter
          (fun e => e.source = "vision_enriched")).length
          ≤ (generate_merged_json parsed omni w h).elements.length :=
            List.length_filter_le _ _
        _ = omni.length := merged_elements_length parsed omni w h
    have hM : ((generate_merged_json parsed omni w h).elements.filter
        (fun e => e.source = "vision_enriched")).length ≤
        (extract_adb_nodes parsed).length := by
      rw [helems]
      omega
    exact le_min hN hM
  · intro pool m det uid i hlen hopt
    exact ⟨(bestAux_some_spec (convert_omni_bbox det.bbox w h) pool m hlen
      i hopt).2.1, (detectionStep_some_parts pool w h m det uid i hopt).2.1⟩
  · intro pool m det uid j hj
    rcases detectionStep_matched_cases pool w h m det uid with
      ⟨_, hm⟩ | ⟨i, _, _, hm⟩
    · rw [hm]
      exact hj
    · rw [hm]
      exact set_true_getD_mono m i j hj

/-- Witness for C4: on the container pool the full-screen detection
consumes the unmatched node 0 and marks it; a marked node stays marked
through a later step. -/
theorem c4_matching_exclusivity_witness :
    (([false, false, false, false] : List Bool).getD 0 false = false ∧
      (detectionStep containerPool 10 10 [false, false, false, false]
        fullDet 1).2 = [false, false, false, false].set 0 true) ∧
    (detectionStep containerPool 10 10 [true, false, false, false]
      fullDet 2).2.getD 0 false = true := by
  constructor
  · exact (c4_matching_exclusivity none [] 10 10).2.1 containerPool
      [false, false, false, false] fullDet 1 0 (by decide)
      containerPool_bestAux
  · exact (c4_matching_exclusivity none [] 10 10).2.2 containerPool
      [true, false, false, false] fullDet 2 0 (by decide)

end ActiveMotion
